import Mathlib

/-!
Shallow embedding of the wizard state machine from `src/src/index.tsx`.

The source is a React component. The pure core is:
  * the reducer passed to `useReducer` (actions `nextStep`, `previousStep`,
    `reset`, plus an `instanceof Error` payload guard and a `default` arm),
  * the helpers `getNextPage`, `getPreviousPage`, `getCurrentStepName`,
    `getCurrentStepIndex`,
  * the `useEffect` that reacts to `currentLocation` changes by invoking one
    of the three host callbacks (`onWizardComplete`, `onWizardCancel`,
    `onWizardStepChanged`),
  * `useWizardContext`, which reads the React context created with default
    value `{} as any`.

The reducer closures read the `steps` prop (`wizardSteps`) and the external
navigation location at dispatch time; both are modelled as an explicit
environment `Env` supplied per transition.  Per-step state is `any` in the
source, initially `null`; it is modelled as `Option V` for a type parameter
`V` (`none` is `null`).  A second `Option` layer models JavaScript
`undefined` where the source can produce it (`steps[i]?.state`).
-/

/-- The `WIZARD_COMPLETE` sentinel location. -/
def WIZARD_COMPLETE : String := "@Wizard/complete"

/-- The `WIZARD_CANCEL` sentinel location. -/
def WIZARD_CANCEL : String := "@Wizard/cancel"

/-- One entry of the step registry (`interface WizardStep`): key, opaque
accumulated state (`null` initially, modelled as `none`), and the intl key
for the next button. -/
structure WizardStep (V : Type) where
  key : String
  state : Option V
  nextButtonIntlKey : String
deriving DecidableEq, Repr

/-- The reducer state (`interface WizardState`). -/
structure WizardState (V : Type) where
  steps : List (WizardStep V)
  currentLocation : String
deriving DecidableEq, Repr

/-- The initial reducer state `{ steps: [], currentLocation: "" }`. -/
def initialWizardState (V : Type) : WizardState V :=
  { steps := [], currentLocation := "" }

/-- Payload of a dispatched action: either a state value (`null` allowed,
hence `Option V`) or a JavaScript `Error` instance. -/
inductive Payload (V : Type)
  | error (message : String)
  | value (v : Option V)
deriving DecidableEq, Repr

/-- Dispatched actions.  `nextStep`, `previousStep` and `reset` are the
members of `enum WizardAction`; `unknown` stands for any action object with
an unrecognized `type`, which the reducer's `default` arm catches. -/
inductive WizardAction (V : Type)
  | nextStep (payload : Payload V)
  | previousStep (payload : Payload V)
  | reset (payload : List String)
  | unknown (msgType : String) (payload : Payload V)
deriving DecidableEq, Repr

/-- The `action.payload instanceof Error` guard at the top of the reducer. -/
def isErrorPayload {V : Type} : WizardAction V → Bool
  | .nextStep (.error _) => true
  | .previousStep (.error _) => true
  | .unknown _ (.error _) => true
  | _ => false

/-- Per-dispatch environment: the `steps` prop (`wizardSteps`), the step
name derived from the externally observed navigation location
(`getCurrentStepName()`), and the two intl-key props. -/
structure Env where
  wizardSteps : List String
  currentStepName : String
  nextIntlKey : String
  completeIntlKey : String
deriving DecidableEq, Repr

/-- JavaScript `Array.prototype.findIndex`, with `none` for the `-1`
not-found result. -/
def findIndexO {α : Type} (p : α → Bool) : List α → Option Nat
  | [] => none
  | x :: xs => if p x then some 0 else (findIndexO p xs).map (· + 1)

/-- `getCurrentStepIndex()`:
`wizardSteps.findIndex((current) => currentStepName === current)`,
returning `-1` when no step matches. -/
def getCurrentStepIndex (env : Env) : Int :=
  match findIndexO (fun current => env.currentStepName == current) env.wizardSteps with
  | some i => (i : Int)
  | none => -1

/-- `getNextPage()`: index of the active step plus one; `WIZARD_COMPLETE`
when that runs past the end of `wizardSteps`, otherwise the key there. -/
def getNextPage (env : Env) : String :=
  let nextStepIndex : Int := getCurrentStepIndex env + 1
  if (env.wizardSteps.length : Int) ≤ nextStepIndex then
    WIZARD_COMPLETE
  else
    env.wizardSteps.getD nextStepIndex.toNat ""

/-- `getPreviousPage()`: index of the active step minus one;
`WIZARD_CANCEL` when that is negative, otherwise the key there. -/
def getPreviousPage (env : Env) : String :=
  let previousStepIndex : Int := getCurrentStepIndex env - 1
  if previousStepIndex < 0 then
    WIZARD_CANCEL
  else
    env.wizardSteps.getD previousStepIndex.toNat ""

/-- JavaScript `Array.prototype.map` with the element index, as used by the
reducer (`state.steps.map((step, index) => ...)`). -/
def mapWithIndexFrom {α β : Type} (f : Nat → α → β) : Nat → List α → List β
  | _, [] => []
  | i, x :: xs => f i x :: mapWithIndexFrom f (i + 1) xs

/-- `mapWithIndexFrom` starting at index `0`. -/
def mapWithIndex {α β : Type} (f : Nat → α → β) (l : List α) : List β :=
  mapWithIndexFrom f 0 l

/-- The `newSteps` computation shared by the `previousStep` and `nextStep`
reducer arms: every step except the one at `getCurrentStepIndex()` is kept,
and that one has its `state` overwritten with something the payload. -/
def overwriteActiveStep {V : Type} (env : Env) (v : Option V)
    (steps : List (WizardStep V)) : List (WizardStep V) :=
  mapWithIndex
    (fun index step =>
      if (index : Int) ≠ getCurrentStepIndex env then step
      else { step with state := v })
    steps

/-- The `nextSteps` computation of the `reset` arm: one fresh step per key,
`state: null`, and the intl key chosen by `index + 1 === stepCount`. -/
def buildSteps {V : Type} (env : Env) (keys : List String) : List (WizardStep V) :=
  mapWithIndex
    (fun index key =>
      { key := key
        state := none
        nextButtonIntlKey :=
          if index + 1 = keys.length then env.completeIntlKey else env.nextIntlKey })
    keys

/-- A placeholder step used only to state `getD` lookups; never produced by
the machine. -/
def defaultWizardStep (V : Type) : WizardStep V :=
  { key := "", state := none, nextButtonIntlKey := "" }

/-- The reducer passed to `useReducer`, lines 165-229 of the source.  The
`Error`-payload guard comes first; the `_` arm is the `default:` case (the
arms repeated for `.error` payloads are unreachable because of the guard). -/
def wizardReducer {V : Type} (env : Env) (state : WizardState V)
    (action : WizardAction V) : WizardState V :=
  if isErrorPayload action then state
  else
    match action with
    | .previousStep (.value v) =>
        { steps := overwriteActiveStep env v state.steps
          currentLocation := getPreviousPage env }
    | .nextStep (.value v) =>
        { steps := overwriteActiveStep env v state.steps
          currentLocation := getNextPage env }
    | .reset keys =>
        if keys.length = 0 then { steps := [], currentLocation := "" }
        else
          { steps := buildSteps env keys
            currentLocation := ((buildSteps (V := V) env keys).headD (defaultWizardStep V)).key }
    | _ => state

/-- The single callback invocation the `useEffect` on `currentLocation`
performs (or `none` when it returns early).  `stepChanged` carries
`steps[getCurrentStepIndex()]?.state`, whose outer `Option` models
JavaScript `undefined` when the index misses the registry. -/
inductive WizardEvent (V : Type)
  | none
  | stepChanged (location : String) (prevStepState : Option (Option V))
  | completed (state : List (String × Option V))
  | cancelled
deriving DecidableEq, Repr

/-- `steps[i]?.state` for a JavaScript (possibly negative) index `i`:
`none` is `undefined`. -/
def stepStateAt {V : Type} (steps : List (WizardStep V)) (i : Int) : Option (Option V) :=
  if 0 ≤ i then (steps[i.toNat]?).map (·.state) else Option.none

/-- Body of the `useEffect` on `currentLocation` (source lines 235-254):
early return on the empty location, then the `switch` on the sentinels; the
default arm invokes the step-changed callback with `currentLocation` and
`steps[getCurrentStepIndex()]?.state`, where `getCurrentStepIndex` reads
the externally observed location held in `env` (unchanged by the dispatch
that produced this state, since the host only navigates in response to the
callback). -/
def locationEffect {V : Type} (env : Env) (steps : List (WizardStep V))
    (currentLocation : String) : WizardEvent V :=
  if currentLocation = "" then .none
  else if currentLocation = WIZARD_COMPLETE then
    .completed (steps.map (fun step => (step.key, step.state)))
  else if currentLocation = WIZARD_CANCEL then .cancelled
  else .stepChanged currentLocation (stepStateAt steps (getCurrentStepIndex env))

/-- The effect has dependency array `[currentLocation]`: it runs once per
change of `currentLocation` and not otherwise. -/
def syncEvent {V : Type} (env : Env) (prevLocation : String)
    (state : WizardState V) : WizardEvent V :=
  if state.currentLocation = prevLocation then .none
  else locationEffect env state.steps state.currentLocation

/-- One dispatch processed by the component: the reducer computes the new
state, then the location effect fires (against the still-unchanged external
location) if the location changed. -/
def transitionEvent {V : Type} (env : Env) (state : WizardState V)
    (action : WizardAction V) : WizardState V × WizardEvent V :=
  let next := wizardReducer env state action
  (next, syncEvent env state.currentLocation next)

/-- A value held by the React context cell: either the literal `{} as any`
default handed to `createContext`, or a value installed by the provider. -/
inductive WizardContextValue (V : Type)
  | emptyObject
  | provided (previousState : Option (Option V)) (nextButtonIntlKey : String)
      (meta : List (String × String))
deriving DecidableEq, Repr

/-- `createContext<WizardContextProps>({} as any)`: the default the context
yields outside any provider is the empty object, not `null` (`none`). -/
def wizardContextDefault (V : Type) : Option (WizardContextValue V) :=
  some .emptyObject

/-- `useWizardContext`: reads the context and throws only when the value
read is `null`. -/
def useWizardContext {V : Type} (context : Option (WizardContextValue V)) :
    Except String (WizardContextValue V) :=
  match context with
  | Option.none =>
      .error "useWizardContext must be used within an WizardContextProvider"
  | some c => .ok c

/-- States reachable from the reducer's initial state by any sequence of
dispatches, each under an arbitrary environment (the `steps` prop and the
external location are read at dispatch time and may be anything). -/
inductive Reachable (V : Type) : WizardState V → Prop
  | init : Reachable V (initialWizardState V)
  | step (env : Env) (action : WizardAction V) {s : WizardState V} :
      Reachable V s → Reachable V (wizardReducer env s action)

/-- States reachable when every `nextStep`/`previousStep` dispatch happens
under an environment whose `steps` prop lists exactly the keys of the
current registry — the discipline the component's reset-on-prop-change
effect maintains between renders. -/
inductive ReachableSync (V : Type) : WizardState V → Prop
  | init : ReachableSync V (initialWizardState V)
  | reset (env : Env) (keys : List String) {s : WizardState V} :
      ReachableSync V s → ReachableSync V (wizardReducer env s (.reset keys))
  | next (env : Env) (p : Payload V) {s : WizardState V} :
      ReachableSync V s → env.wizardSteps = s.steps.map (·.key) →
      ReachableSync V (wizardReducer env s (.nextStep p))
  | back (env : Env) (p : Payload V) {s : WizardState V} :
      ReachableSync V s → env.wizardSteps = s.steps.map (·.key) →
      ReachableSync V (wizardReducer env s (.previousStep p))
  | other (env : Env) (msgType : String) (p : Payload V) {s : WizardState V} :
      ReachableSync V s → ReachableSync V (wizardReducer env s (.unknown msgType p))

/-! ### Helper lemmas about the embedded list operations -/

theorem length_mapWithIndexFrom {α β : Type} (f : Nat → α → β) (i : Nat)
    (l : List α) : (mapWithIndexFrom f i l).length = l.length := by
  induction l generalizing i with
  | nil => rfl
  | cons x xs ih => simp [mapWithIndexFrom, ih]

theorem getElem?_mapWithIndexFrom {α β : Type} (f : Nat → α → β) (i n : Nat)
    (l : List α) :
    (mapWithIndexFrom f i l)[n]? = (l[n]?).map (f (i + n)) := by
  induction l generalizing i n with
  | nil => simp [mapWithIndexFrom]
  | cons x xs ih =>
    cases n with
    | zero => simp [mapWithIndexFrom]
    | succ m =>
      have h := ih (i + 1) m
      simpa [mapWithIndexFrom, Nat.add_assoc, Nat.add_comm 1 m] using h

theorem length_mapWithIndex {α β : Type} (f : Nat → α → β) (l : List α) :
    (mapWithIndex f l).length = l.length :=
  length_mapWithIndexFrom f 0 l

theorem getElem?_mapWithIndex {α β : Type} (f : Nat → α → β) (n : Nat)
    (l : List α) : (mapWithIndex f l)[n]? = (l[n]?).map (f n) := by
  simpa [mapWithIndex] using getElem?_mapWithIndexFrom f 0 n l

theorem mapWithIndexFrom_id {α : Type} (f : Nat → α → α)
    (hf : ∀ i x, f i x = x) (i : Nat) (l : List α) :
    mapWithIndexFrom f i l = l := by
  induction l generalizing i with
  | nil => rfl
  | cons x xs ih => simp [mapWithIndexFrom, hf, ih]

theorem findIndexO_lt_length {α : Type} (p : α → Bool) (l : List α) (i : Nat)
    (h : findIndexO p l = some i) : i < l.length := by
  induction l generalizing i with
  | nil => simp [findIndexO] at h
  | cons x xs ih =>
    by_cases hp : p x
    · rw [findIndexO, if_pos hp] at h
      injection h with h0
      simp [List.length_cons]
      omega
    · rw [findIndexO, if_neg hp] at h
      obtain ⟨j, hj, hji⟩ := Option.map_eq_some'.mp h
      have := ih j hj
      simp [List.length_cons]
      omega

theorem getD_mem_of_lt {α : Type} (l : List α) (n : Nat) (d : α)
    (h : n < l.length) : l.getD n d ∈ l := by
  rw [List.getD_eq_getElem?_getD, List.getElem?_eq_getElem h]
  exact List.getElem_mem h

theorem getCurrentStepIndex_eq_of_find (env : Env) (i : Nat)
    (h : findIndexO (fun current => env.currentStepName == current)
        env.wizardSteps = some i) :
    getCurrentStepIndex env = i := by
  simp [getCurrentStepIndex, h]

theorem getCurrentStepIndex_eq_of_miss (env : Env)
    (h : findIndexO (fun current => env.currentStepName == current)
        env.wizardSteps = none) :
    getCurrentStepIndex env = -1 := by
  simp [getCurrentStepIndex, h]

theorem length_overwriteActiveStep {V : Type} (env : Env) (v : Option V)
    (steps : List (WizardStep V)) :
    (overwriteActiveStep env v steps).length = steps.length :=
  length_mapWithIndex _ steps

theorem getElem?_overwriteActiveStep {V : Type} (env : Env) (v : Option V)
    (steps : List (WizardStep V)) (n : Nat) :
    (overwriteActiveStep env v steps)[n]? =
      (steps[n]?).map
        (fun step =>
          if (n : Int) ≠ getCurrentStepIndex env then step
          else { step with state := v }) :=
  getElem?_mapWithIndex _ n steps

theorem map_key_overwriteActiveStep {V : Type} (env : Env) (v : Option V)
    (steps : List (WizardStep V)) :
    (overwriteActiveStep env v steps).map (·.key) = steps.map (·.key) := by
  apply List.ext_getElem?
  intro n
  rw [List.getElem?_map, List.getElem?_map, getElem?_overwriteActiveStep]
  cases h : steps[n]? with
  | none => rfl
  | some step =>
    simp only [Option.map_some']
    congr 1
    split <;> rfl

theorem length_buildSteps {V : Type} (env : Env) (keys : List String) :
    (buildSteps (V := V) env keys).length = keys.length :=
  length_mapWithIndex _ keys

theorem getElem?_buildSteps {V : Type} (env : Env) (keys : List String)
    (n : Nat) :
    (buildSteps (V := V) env keys)[n]? =
      (keys[n]?).map
        (fun key =>
          { key := key
            state := Option.none
            nextButtonIntlKey :=
              if n + 1 = keys.length then env.completeIntlKey
              else env.nextIntlKey }) :=
  getElem?_mapWithIndex _ n keys

theorem map_key_buildSteps {V : Type} (env : Env) (keys : List String) :
    (buildSteps (V := V) env keys).map (·.key) = keys := by
  apply List.ext_getElem?
  intro n
  rw [List.getElem?_map, getElem?_buildSteps]
  cases h : keys[n]? <;> rfl

theorem getD_zero_eq_headD {α : Type} (l : List α) (d : α) :
    l.getD 0 d = l.headD d := by
  cases l <;> rfl

/-! ### Claim theorems -/

/-- C4: `reset` with a non-empty key list produces a registry of the same
length with the keys in the same order, every step's state absent, the last
step labelled `completeIntlKey` and all others `nextIntlKey`, and
`currentLocation` set to the first key; `reset` with the empty list yields
an empty registry and an empty `currentLocation`. -/
theorem reset_builds_registry {V : Type} (env : Env) (s : WizardState V)
    (keys : List String) (hne : keys ≠ []) :
    ((wizardReducer env s (.reset [])).steps = [] ∧
      (wizardReducer env s (.reset [])).currentLocation = "") ∧
    (wizardReducer env s (.reset keys)).steps.length = keys.length ∧
    (wizardReducer env s (.reset keys)).steps.map (·.key) = keys ∧
    (∀ j, j < keys.length →
      (wizardReducer env s (.reset keys)).steps[j]? =
        some { key := keys.getD j ""
               state := Option.none
               nextButtonIntlKey :=
                 if j = keys.length - 1 then env.completeIntlKey
                 else env.nextIntlKey }) ∧
    (wizardReducer env s (.reset keys)).currentLocation = keys.headD "" := by
  have hlen0 : keys.length ≠ 0 := fun h => hne (List.length_eq_zero.mp h)
  have hred : wizardReducer env s (.reset keys) =
      { steps := buildSteps env keys
        currentLocation :=
          ((buildSteps (V := V) env keys).headD (defaultWizardStep V)).key } := by
    simp [wizardReducer, isErrorPayload, hlen0]
  refine ⟨⟨?_, ?_⟩, ?_, ?_, ?_, ?_⟩
  · simp [wizardReducer, isErrorPayload]
  · simp [wizardReducer, isErrorPayload]
  · rw [hred]
    exact length_buildSteps env keys
  · rw [hred]
    exact map_key_buildSteps env keys
  · intro j hj
    rw [hred]
    show (buildSteps env keys)[j]? = _
    rw [getElem?_buildSteps, List.getElem?_eq_getElem hj]
    simp only [Option.map_some']
    have hkey : keys.getD j "" = keys[j] := by
      rw [List.getD_eq_getElem?_getD, List.getElem?_eq_getElem hj]
      rfl
    rw [hkey]
    by_cases hj1 : j + 1 = keys.length
    · rw [if_pos hj1, if_pos (by omega : j = keys.length - 1)]
    · rw [if_neg hj1, if_neg (by omega : ¬j = keys.length - 1)]
  · rw [hred]
    cases keys with
    | nil => exact absurd rfl hne
    | cons k ks => simp [buildSteps, mapWithIndex, mapWithIndexFrom]

/-- C4 witness: resetting with `["a", "b"]` lands on the first key. -/
theorem reset_builds_registry_witness :
    (wizardReducer (V := String) ⟨[], "", "N", "C"⟩ (initialWizardState String)
      (.reset ["a", "b"])).currentLocation = "a" := by
  have h := reset_builds_registry (V := String) ⟨[], "", "N", "C"⟩
    (initialWizardState String) ["a", "b"] (by decide)
  simpa using h.2.2.2.2

/-- C8: a transition request with an `Error` payload, or one with an
unrecognized type, leaves the machine state unchanged; since the location
does not change, the location effect does not re-fire, so no callback is
invoked for that request. -/
theorem rejected_request_unchanged {V : Type} (env : Env) (s : WizardState V)
    (a : WizardAction V)
    (ha : isErrorPayload a = true ∨
      ∃ msgType p, a = WizardAction.unknown msgType p) :
    wizardReducer env s a = s ∧
    syncEvent env s.currentLocation (wizardReducer env s a) =
      WizardEvent.none := by
  have hred : wizardReducer env s a = s := by
    rcases ha with ha | ⟨msgType, p, rfl⟩
    · simp [wizardReducer, ha]
    · cases p <;> simp [wizardReducer, isErrorPayload]
  refine ⟨hred, ?_⟩
  rw [hred]
  simp [syncEvent]

/-- C8 witness: an `Error`-payload advance request at a concrete state. -/
theorem rejected_request_unchanged_witness :
    wizardReducer (V := String) ⟨["a"], "a", "N", "C"⟩
      (initialWizardState String) (.nextStep (.error "boom")) =
      initialWizardState String :=
  (rejected_request_unchanged ⟨["a"], "a", "N", "C"⟩ (initialWizardState String)
    (.nextStep (.error "boom")) (Or.inl rfl)).1

/-- C10: with a non-empty declared step list and an external location that
matches no step key (the `findIndex` lookup misses), `nextStep` sets
`currentLocation` to the first declared key and overwrites no step's state,
and `previousStep` sets `currentLocation` to the `WIZARD_CANCEL`
sentinel. -/
theorem missing_active_step_transitions {V : Type} (env : Env)
    (s : WizardState V) (v : Option V)
    (hne : env.wizardSteps ≠ [])
    (hmiss : findIndexO (fun current => env.currentStepName == current)
        env.wizardSteps = none) :
    (wizardReducer env s (.nextStep (.value v))).currentLocation =
      env.wizardSteps.headD "" ∧
    (wizardReducer env s (.nextStep (.value v))).steps = s.steps ∧
    (wizardReducer env s (.previousStep (.value v))).currentLocation =
      WIZARD_CANCEL := by
  have hidx : getCurrentStepIndex env = -1 :=
    getCurrentStepIndex_eq_of_miss env hmiss
  have hlen : 0 < env.wizardSteps.length := List.length_pos.mpr hne
  refine ⟨?_, ?_, ?_⟩
  · show getNextPage env = env.wizardSteps.headD ""
    simp only [getNextPage, hidx]
    have h0 : (-1 : Int) + 1 = 0 := by norm_num
    rw [h0, if_neg (by omega)]
    exact getD_zero_eq_headD env.wizardSteps ""
  · show overwriteActiveStep env v s.steps = s.steps
    rw [overwriteActiveStep, mapWithIndex, hidx]
    exact mapWithIndexFrom_id _ (fun i x => if_pos (by omega)) 0 s.steps
  · show getPreviousPage env = WIZARD_CANCEL
    rw [getPreviousPage]
    simp only [hidx]
    norm_num

/-- C10 witness: location `"zzz"` matches neither `"a"` nor `"b"`; advance
goes to the first step. -/
theorem missing_active_step_transitions_witness :
    (wizardReducer (V := String) ⟨["a", "b"], "zzz", "N", "C"⟩
      (initialWizardState String)
      (.nextStep (.value (some "v")))).currentLocation = "a" := by
  have h := missing_active_step_transitions (V := String)
    ⟨["a", "b"], "zzz", "N", "C"⟩ (initialWizardState String) (some "v")
    (by decide) (by decide)
  simpa using h.1

/-- C5: with the registry keys matching the declared step list and the
externally observed active step at index `i`, `nextStep` sets
`currentLocation` to the key of the step at `i + 1` when that index is in
range, and to the `WIZARD_COMPLETE` sentinel when `i` is the last index. -/
theorem advance_sets_next_location {V : Type} (env : Env) (s : WizardState V)
    (v : Option V) (i : Nat)
    (hkeys : env.wizardSteps = s.steps.map (·.key))
    (hfind : findIndexO (fun current => env.currentStepName == current)
        env.wizardSteps = some i) :
    (∀ h : i + 1 < s.steps.length,
      (wizardReducer env s (.nextStep (.value v))).currentLocation =
        s.steps[i + 1].key) ∧
    (i + 1 = s.steps.length →
      (wizardReducer env s (.nextStep (.value v))).currentLocation =
        WIZARD_COMPLETE) := by
  have hidx := getCurrentStepIndex_eq_of_find env i hfind
  have hlen : env.wizardSteps.length = s.steps.length := by
    rw [hkeys, List.length_map]
  have hloc : (wizardReducer env s (.nextStep (.value v))).currentLocation =
      getNextPage env := by
    simp [wizardReducer, isErrorPayload]
  constructor
  · intro h
    rw [hloc]
    simp only [getNextPage, hidx]
    rw [if_neg (by omega)]
    have ht : ((i : Int) + 1).toNat = i + 1 := by omega
    rw [ht, List.getD_eq_getElem?_getD, hkeys, List.getElem?_map,
      List.getElem?_eq_getElem h]
    rfl
  · intro h
    rw [hloc]
    simp only [getNextPage, hidx]
    rw [if_pos (by omega)]

/-- C5 witness: for steps `["a", "b"]` active at `"a"`, advance lands on
`"b"`. -/
theorem advance_sets_next_location_witness :
    (wizardReducer ⟨["a", "b"], "a", "N", "C"⟩
      (WizardState.mk [⟨"a", Option.none, "N"⟩, ⟨"b", Option.none, "C"⟩] "a")
      (.nextStep (.value (some "x")))).currentLocation = "b" := by
  have h := (advance_sets_next_location ⟨["a", "b"], "a", "N", "C"⟩
    (WizardState.mk [⟨"a", Option.none, "N"⟩, ⟨"b", Option.none, "C"⟩] "a")
    (some "x") 0 (by decide) (by decide)).1 (by decide)
  simpa using h

/-- C6: with the registry keys matching the declared step list and the
externally observed active step at index `i`, `previousStep` sets
`currentLocation` to the key of the step at `i - 1` when `0 < i`; when
`i = 0` it sets `currentLocation` to the `WIZARD_CANCEL` sentinel and the
location effect for that (single) change is the cancellation callback, not
the step-changed callback; once the location is the sentinel, the effect
does not fire again. -/
theorem retreat_sets_previous_location {V : Type} (env : Env)
    (s : WizardState V) (v : Option V) (i : Nat)
    (hkeys : env.wizardSteps = s.steps.map (·.key))
    (hfind : findIndexO (fun current => env.currentStepName == current)
        env.wizardSteps = some i) :
    (∀ h0 : 0 < i, ∀ h : i - 1 < s.steps.length,
      (wizardReducer env s (.previousStep (.value v))).currentLocation =
        s.steps[i - 1].key) ∧
    (i = 0 → s.currentLocation ≠ WIZARD_CANCEL →
      (wizardReducer env s (.previousStep (.value v))).currentLocation =
        WIZARD_CANCEL ∧
      (transitionEvent env s (.previousStep (.value v))).2 =
        WizardEvent.cancelled) ∧
    (∀ t : WizardState V, t.currentLocation = WIZARD_CANCEL →
      syncEvent env WIZARD_CANCEL t = WizardEvent.none) := by
  have hidx := getCurrentStepIndex_eq_of_find env i hfind
  have hloc : (wizardReducer env s (.previousStep (.value v))).currentLocation =
      getPreviousPage env := by
    simp [wizardReducer, isErrorPayload]
  refine ⟨?_, ?_, ?_⟩
  · intro h0 h
    rw [hloc]
    simp only [getPreviousPage, hidx]
    rw [if_neg (by omega)]
    have ht : ((i : Int) - 1).toNat = i - 1 := by omega
    rw [ht, List.getD_eq_getElem?_getD, hkeys, List.getElem?_map,
      List.getElem?_eq_getElem h]
    rfl
  · intro h0 hnc
    subst h0
    have hloc2 : (wizardReducer env s
        (.previousStep (.value v))).currentLocation = WIZARD_CANCEL := by
      rw [hloc]
      simp only [getPreviousPage, hidx]
      norm_num
    refine ⟨hloc2, ?_⟩
    show syncEvent env s.currentLocation
      (wizardReducer env s (.previousStep (.value v))) = WizardEvent.cancelled
    simp only [syncEvent, hloc2]
    rw [if_neg (fun heq => hnc heq.symm)]
    simp only [locationEffect]
    rw [if_neg (by decide), if_neg (by decide)]
    simp
  · intro t ht
    simp [syncEvent, ht]

/-- C6 witness: for steps `["a", "b"]` active at `"a"`, retreat cancels. -/
theorem retreat_sets_previous_location_witness :
    (transitionEvent ⟨["a", "b"], "a", "N", "C"⟩
      (WizardState.mk [⟨"a", Option.none, "N"⟩, ⟨"b", Option.none, "C"⟩] "a")
      (.previousStep (.value (some "x")))).2 = WizardEvent.cancelled :=
  ((retreat_sets_previous_location ⟨["a", "b"], "a", "N", "C"⟩
    (WizardState.mk [⟨"a", Option.none, "N"⟩, ⟨"b", Option.none, "C"⟩] "a")
    (some "x") 0 (by decide) (by decide)).2.1 rfl (by decide)).2

/-- C7: a `nextStep` or `previousStep` request with a value payload keeps
the registry length, leaves every step whose index differs from the
externally observed active index untouched, and at the active index only
overwrites `state` with the payload, keeping `key` and the label. -/
theorem transition_overwrites_only_active {V : Type} (env : Env)
    (s : WizardState V) (v : Option V) (a : WizardAction V)
    (ha : a = WizardAction.nextStep (.value v) ∨
      a = WizardAction.previousStep (.value v)) :
    (wizardReducer env s a).steps.length = s.steps.length ∧
    ∀ j : Nat,
      ((j : Int) ≠ getCurrentStepIndex env →
        (wizardReducer env s a).steps[j]? = s.steps[j]?) ∧
      ((j : Int) = getCurrentStepIndex env →
        (wizardReducer env s a).steps[j]? =
          (s.steps[j]?).map (fun step => { step with state := v })) := by
  have hsteps : (wizardReducer env s a).steps = overwriteActiveStep env v s.steps := by
    rcases ha with rfl | rfl <;> simp [wizardReducer, isErrorPayload]
  refine ⟨?_, ?_⟩
  · rw [hsteps]
    exact length_overwriteActiveStep env v s.steps
  · intro j
    constructor
    · intro hne
      rw [hsteps, getElem?_overwriteActiveStep]
      cases s.steps[j]? with
      | none => rfl
      | some step =>
        simp only [Option.map_some']
        rw [if_pos hne]
    · intro heq
      rw [hsteps, getElem?_overwriteActiveStep]
      cases s.steps[j]? with
      | none => rfl
      | some step =>
        simp only [Option.map_some']
        rw [if_neg (not_not_intro heq)]

/-- C7 witness: advancing from `"a"` leaves the step at index 1 intact. -/
theorem transition_overwrites_only_active_witness :
    (wizardReducer ⟨["a", "b"], "a", "N", "C"⟩
      (WizardState.mk [⟨"a", Option.none, "N"⟩, ⟨"b", Option.none, "C"⟩] "a")
      (.nextStep (.value (some "x")))).steps[1]? =
      some ⟨"b", Option.none, "C"⟩ := by
  have h := ((transition_overwrites_only_active ⟨["a", "b"], "a", "N", "C"⟩
    (WizardState.mk [⟨"a", Option.none, "N"⟩, ⟨"b", Option.none, "C"⟩] "a")
    (some "x") (.nextStep (.value (some "x"))) (Or.inl rfl)).2 1).1 (by decide)
  exact h.trans (by decide)

/-- C9: when `currentLocation` becomes `WIZARD_COMPLETE`, the single effect
fired for that change carries the mapping from every registry key to that
step's final stored state, and while the location stays at the sentinel the
effect does not fire again; concretely, for steps `["a", "b"]`, advancing
with `stateA` at `"a"` and then with `stateB` at `"b"` completes with
`[("a", stateA), ("b", stateB)]`. -/
theorem completion_event_payload :
    (∀ (V : Type) (env : Env) (prevLocation : String) (t : WizardState V),
      t.currentLocation = WIZARD_COMPLETE → prevLocation ≠ WIZARD_COMPLETE →
      syncEvent env prevLocation t =
        WizardEvent.completed (t.steps.map (fun step => (step.key, step.state)))) ∧
    (∀ (V : Type) (env : Env) (t : WizardState V),
      t.currentLocation = WIZARD_COMPLETE →
      syncEvent env WIZARD_COMPLETE t = WizardEvent.none) ∧
    (transitionEvent ⟨["a", "b"], "b", "N", "C"⟩
        (transitionEvent ⟨["a", "b"], "a", "N", "C"⟩
          (wizardReducer ⟨["a", "b"], "a", "N", "C"⟩ (initialWizardState String)
            (WizardAction.reset ["a", "b"]))
          (WizardAction.nextStep (Payload.value (some "stateA")))).1
        (WizardAction.nextStep (Payload.value (some "stateB")))).2 =
      WizardEvent.completed [("a", some "stateA"), ("b", some "stateB")] := by
  refine ⟨?_, ?_, ?_⟩
  · intro V env prevLocation t h1 h2
    have hne2 : ¬WIZARD_COMPLETE = prevLocation := fun heq => h2 heq.symm
    simp only [syncEvent, locationEffect, h1]
    rw [if_neg hne2, if_neg (by decide)]
    simp
  · intro V env t h1
    simp [syncEvent, h1]
  · decide

/-- C9 witness: the general completion rule applied at a concrete state. -/
theorem completion_event_payload_witness :
    syncEvent (V := String) ⟨["a"], "a", "N", "C"⟩ "a"
      (WizardState.mk [⟨"a", some "x", "C"⟩] WIZARD_COMPLETE) =
      WizardEvent.completed [("a", some "x")] := by
  have h := completion_event_payload.1 String ⟨["a"], "a", "N", "C"⟩ "a"
    (WizardState.mk [⟨"a", some "x", "C"⟩] WIZARD_COMPLETE) rfl (by decide)
  exact h.trans (by decide)

/-- C2: read outside any provider, the context cell yields the
`createContext` default — the empty object cast, not `null` — so
`useWizardContext`'s `context === null` guard never fires: the call
returns a value instead of throwing the usage error.  This contradicts the
spec (and the error message the source carries); the claim is right and the
code wrong. -/
theorem useWizardContext_outside_provider_returns :
    useWizardContext (wizardContextDefault String) =
      Except.ok WizardContextValue.emptyObject ∧
    ∀ e : String, useWizardContext (wizardContextDefault String) ≠
      Except.error e := by
  constructor
  · rfl
  · intro e h
    simp [useWizardContext, wizardContextDefault] at h

theorem neg_one_le_getCurrentStepIndex (env : Env) :
    -1 ≤ getCurrentStepIndex env := by
  cases hfind : findIndexO (fun current => env.currentStepName == current)
      env.wizardSteps with
  | none => simp [getCurrentStepIndex, hfind]
  | some i =>
    simp only [getCurrentStepIndex, hfind]
    omega

theorem getNextPage_mem_or (env : Env) :
    getNextPage env = WIZARD_COMPLETE ∨ getNextPage env ∈ env.wizardSteps := by
  by_cases hc : (env.wizardSteps.length : Int) ≤ getCurrentStepIndex env + 1
  · left
    simp only [getNextPage]
    rw [if_pos hc]
  · right
    simp only [getNextPage]
    rw [if_neg hc]
    apply getD_mem_of_lt
    have hm1 := neg_one_le_getCurrentStepIndex env
    omega

theorem getPreviousPage_mem_or (env : Env) :
    getPreviousPage env = WIZARD_CANCEL ∨
      getPreviousPage env ∈ env.wizardSteps := by
  cases hfind : findIndexO (fun current => env.currentStepName == current)
      env.wizardSteps with
  | none =>
    left
    have hidx := getCurrentStepIndex_eq_of_miss env hfind
    simp only [getPreviousPage, hidx]
    norm_num
  | some i =>
    have hidx := getCurrentStepIndex_eq_of_find env i hfind
    have hlt := findIndexO_lt_length _ _ _ hfind
    by_cases hc : (i : Int) - 1 < 0
    · left
      simp only [getPreviousPage, hidx]
      rw [if_pos hc]
    · right
      simp only [getPreviousPage, hidx]
      rw [if_neg hc]
      apply getD_mem_of_lt
      omega

/-- C3 counterexample: the reducer reads the declared step list from the
props at dispatch time; a `nextStep` dispatched while that list disagrees
with the registry (here: registry built from `["a", "b"]`, props changed to
`["a", "x"]`) reaches a state whose `currentLocation` `"x"` is a step key
matching no element of the registry. -/
theorem reachable_dangling_counterexample :
    Reachable String
      (WizardState.mk [⟨"a", some "p", "N"⟩, ⟨"b", Option.none, "C"⟩] "x") ∧
    "x" ≠ WIZARD_COMPLETE ∧ "x" ≠ WIZARD_CANCEL ∧ "x" ≠ "" ∧
    "x" ∉ (WizardState.mk (V := String)
      [⟨"a", some "p", "N"⟩, ⟨"b", Option.none, "C"⟩] "x").steps.map (·.key) := by
  refine ⟨?_, by decide, by decide, by decide, by decide⟩
  have h1 : Reachable String
      (wizardReducer ⟨["a", "x"], "a", "N", "C"⟩
        (wizardReducer ⟨["a", "b"], "a", "N", "C"⟩ (initialWizardState String)
          (.reset ["a", "b"]))
        (.nextStep (.value (some "p")))) :=
    Reachable.step _ _ (Reachable.step _ _ Reachable.init)
  have e : wizardReducer ⟨["a", "x"], "a", "N", "C"⟩
      (wizardReducer ⟨["a", "b"], "a", "N", "C"⟩ (initialWizardState String)
        (.reset ["a", "b"]))
      (.nextStep (.value (some "p"))) =
      WizardState.mk [⟨"a", some "p", "N"⟩, ⟨"b", Option.none, "C"⟩] "x" := by
    decide
  exact e ▸ h1

/-- C3 amended: along every dispatch sequence in which each
`nextStep`/`previousStep` runs with the declared step list equal to the
registry's keys (the discipline the component maintains), a
`currentLocation` that is neither sentinel nor empty always equals the key
of some registry element. -/
theorem reachable_sync_location_in_registry {V : Type} (s : WizardState V)
    (hs : ReachableSync V s) :
    s.currentLocation ≠ WIZARD_COMPLETE → s.currentLocation ≠ WIZARD_CANCEL →
    s.currentLocation ≠ "" → s.currentLocation ∈ s.steps.map (·.key) := by
  induction hs with
  | init =>
    intro _ _ h3
    exact absurd rfl h3
  | @reset env keys s0 h ih =>
    intro h1 h2 h3
    by_cases hk : keys = []
    · subst hk
      simp [wizardReducer, isErrorPayload] at h3
    · have hlen0 : keys.length ≠ 0 := fun hz => hk (List.length_eq_zero.mp hz)
      have hred : wizardReducer env s0 (WizardAction.reset keys) =
          { steps := buildSteps env keys
            currentLocation :=
              ((buildSteps (V := V) env keys).headD (defaultWizardStep V)).key } := by
        simp [wizardReducer, isErrorPayload, hlen0]
      rw [hred]
      show ((buildSteps (V := V) env keys).headD (defaultWizardStep V)).key ∈
        (buildSteps (V := V) env keys).map (·.key)
      rw [map_key_buildSteps]
      cases keys with
      | nil => exact absurd rfl hk
      | cons k ks =>
        simp [buildSteps, mapWithIndex, mapWithIndexFrom]
  | @next env p s0 h heq ih =>
    intro h1 h2 h3
    cases p with
    | error msg =>
      have hred : wizardReducer env s0 (WizardAction.nextStep (.error msg)) = s0 := by
        simp [wizardReducer, isErrorPayload]
      rw [hred] at h1 h2 h3 ⊢
      exact ih h1 h2 h3
    | value v =>
      have hloc : (wizardReducer env s0
          (WizardAction.nextStep (.value v))).currentLocation =
          getNextPage env := by
        simp [wizardReducer, isErrorPayload]
      have hsteps : (wizardReducer env s0
          (WizardAction.nextStep (.value v))).steps =
          overwriteActiveStep env v s0.steps := by
        simp [wizardReducer, isErrorPayload]
      rcases getNextPage_mem_or env with hcase | hcase
      · exact absurd (hloc.trans hcase) h1
      · rw [hloc, hsteps, map_key_overwriteActiveStep, ← heq]
        exact hcase
  | @back env p s0 h heq ih =>
    intro h1 h2 h3
    cases p with
    | error msg =>
      have hred : wizardReducer env s0 (WizardAction.previousStep (.error msg)) = s0 := by
        simp [wizardReducer, isErrorPayload]
      rw [hred] at h1 h2 h3 ⊢
      exact ih h1 h2 h3
    | value v =>
      have hloc : (wizardReducer env s0
          (WizardAction.previousStep (.value v))).currentLocation =
          getPreviousPage env := by
        simp [wizardReducer, isErrorPayload]
      have hsteps : (wizardReducer env s0
          (WizardAction.previousStep (.value v))).steps =
          overwriteActiveStep env v s0.steps := by
        simp [wizardReducer, isErrorPayload]
      rcases getPreviousPage_mem_or env with hcase | hcase
      · exact absurd (hloc.trans hcase) h2
      · rw [hloc, hsteps, map_key_overwriteActiveStep, ← heq]
        exact hcase
  | @other env msgType p s0 h ih =>
    intro h1 h2 h3
    have hred : wizardReducer env s0 (WizardAction.unknown msgType p) = s0 := by
      cases p <;> simp [wizardReducer, isErrorPayload]
    rw [hred] at h1 h2 h3 ⊢
    exact ih h1 h2 h3

/-- C3 witness: after a reset with `["a"]`, the location `"a"` is a
registry key. -/
theorem reachable_sync_location_in_registry_witness :
    (wizardReducer (V := String) ⟨[], "", "N", "C"⟩ (initialWizardState String)
      (.reset ["a"])).currentLocation ∈
      (wizardReducer (V := String) ⟨[], "", "N", "C"⟩ (initialWizardState String)
        (.reset ["a"])).steps.map (·.key) :=
  reachable_sync_location_in_registry _
    (ReachableSync.reset ⟨[], "", "N", "C"⟩ ["a"] ReachableSync.init)
    (by decide) (by decide) (by decide)

/-- C1 counterexample: for steps `["profile", "payment", "confirm"]`,
advance at `"profile"` with payload `"P"` moves the location to
`"payment"`, whose previous persisted state is `null` (`some none`), yet
the step-changed callback receives the submitted payload
(`some (some "P")`), not that previous state. -/
theorem stepchanged_prev_state_counterexample :
    stepStateAt
      (wizardReducer ⟨["profile", "payment", "confirm"], "profile", "Next", "Finish"⟩
        (initialWizardState String)
        (.reset ["profile", "payment", "confirm"])).steps 1 = some Option.none ∧
    (transitionEvent ⟨["profile", "payment", "confirm"], "profile", "Next", "Finish"⟩
        (wizardReducer ⟨["profile", "payment", "confirm"], "profile", "Next", "Finish"⟩
          (initialWizardState String) (.reset ["profile", "payment", "confirm"]))
        (.nextStep (.value (some "P")))).1.currentLocation = "payment" ∧
    (transitionEvent ⟨["profile", "payment", "confirm"], "profile", "Next", "Finish"⟩
        (wizardReducer ⟨["profile", "payment", "confirm"], "profile", "Next", "Finish"⟩
          (initialWizardState String) (.reset ["profile", "payment", "confirm"]))
        (.nextStep (.value (some "P")))).2 ≠
      WizardEvent.stepChanged "payment" (some Option.none) ∧
    (transitionEvent ⟨["profile", "payment", "confirm"], "profile", "Next", "Finish"⟩
        (wizardReducer ⟨["profile", "payment", "confirm"], "profile", "Next", "Finish"⟩
          (initialWizardState String) (.reset ["profile", "payment", "confirm"]))
        (.nextStep (.value (some "P")))).2 =
      WizardEvent.stepChanged "payment" (some (some "P")) := by
  decide

/-- C1 amended: when an advance/retreat with value payload `v` fired while
the externally observed active step has a valid index lands on a changed,
non-sentinel, non-empty location, the step-changed callback receives the
new location key together with the state stored at the active index after
the transition — the payload the departing step just submitted — rather
than the destination step's previously persisted state. -/
theorem stepchanged_carries_submitted_state {V : Type} (env : Env)
    (s : WizardState V) (v : Option V) (a : WizardAction V) (i : Nat)
    (ha : a = WizardAction.nextStep (.value v) ∨
      a = WizardAction.previousStep (.value v))
    (hfind : findIndexO (fun current => env.currentStepName == current)
        env.wizardSteps = some i)
    (hlt : i < s.steps.length)
    (hchanged : (wizardReducer env s a).currentLocation ≠ s.currentLocation)
    (hne : (wizardReducer env s a).currentLocation ≠ "")
    (hnc2 : (wizardReducer env s a).currentLocation ≠ WIZARD_COMPLETE)
    (hnx : (wizardReducer env s a).currentLocation ≠ WIZARD_CANCEL) :
    (transitionEvent env s a).2 =
      WizardEvent.stepChanged (wizardReducer env s a).currentLocation
        (some v) := by
  have hidx := getCurrentStepIndex_eq_of_find env i hfind
  have hsteps : (wizardReducer env s a).steps = overwriteActiveStep env v s.steps := by
    rcases ha with rfl | rfl <;> simp [wizardReducer, isErrorPayload]
  show syncEvent env s.currentLocation (wizardReducer env s a) = _
  simp only [syncEvent]
  rw [if_neg hchanged]
  simp only [locationEffect]
  rw [if_neg hne, if_neg hnc2, if_neg hnx, hsteps, hidx]
  simp only [stepStateAt, Int.toNat_natCast]
  rw [if_pos (by omega : (0 : Int) ≤ (i : Int))]
  rw [getElem?_overwriteActiveStep, hidx, List.getElem?_eq_getElem hlt]
  simp

/-- C1 witness: the concrete scenario; the callback carries the payload
`"P"`, the state just stored for the departing step `"profile"`. -/
theorem stepchanged_carries_submitted_state_witness :
    (transitionEvent ⟨["profile", "payment", "confirm"], "profile", "Next", "Finish"⟩
      (wizardReducer ⟨["profile", "payment", "confirm"], "profile", "Next", "Finish"⟩
        (initialWizardState String) (.reset ["profile", "payment", "confirm"]))
      (.nextStep (.value (some "P")))).2 =
      WizardEvent.stepChanged "payment" (some (some "P")) := by
  have h := stepchanged_carries_submitted_state
    ⟨["profile", "payment", "confirm"], "profile", "Next", "Finish"⟩
    (wizardReducer ⟨["profile", "payment", "confirm"], "profile", "Next", "Finish"⟩
      (initialWizardState String) (.reset ["profile", "payment", "confirm"]))
    (some "P") (.nextStep (.value (some "P"))) 0 (Or.inl rfl) (by decide)
    (by decide) (by decide) (by decide) (by decide) (by decide)
  exact h.trans (by decide)
